import Mathlib

/-!
Verification of the `Mindra-inc/agent-template-go` HTTP agent template
against its natural-language specification.

The whole program lives in `examples/claude_agent.go`.  The development
below is a shallow embedding of the parts of that file the claims are
about:

* the cost computation `CalculateCost` (Go `float64` arithmetic is
  embedded exactly: every Go floating-point operation is modelled as the
  exact rational result rounded to IEEE-754 binary64 precision by `fl`,
  round-to-nearest, ties-to-even, 53-bit significand; the exponent range
  is left unbounded, which is faithful for every value reachable from
  `int64` token counts — no overflow or subnormal can occur there);
* the result interpreter `parseResult` with its markdown-fence stripping
  (`bytes.Split` / `bytes.Contains` / `bytes.TrimSpace` are modelled on
  `List Char`);
* the HTTP surface: `rootHandler`, `healthHandler`, `infoHandler`,
  `executeHandler` and the route table of `main`.
-/

/- ===================================================================
   Part 1.  Binary64 rounding on ℚ
   =================================================================== -/

/-- Round-to-nearest-integer, ties to even: the rounding used by IEEE-754
arithmetic at the significand level. -/
def rne (x : ℚ) : ℤ :=
  if x - ⌊x⌋ < 1/2 then ⌊x⌋
  else if 1/2 < x - ⌊x⌋ then ⌊x⌋ + 1
  else if ⌊x⌋ % 2 = 0 then ⌊x⌋ else ⌊x⌋ + 1

/-- Truncation toward zero, the semantics of Go's `int(x)` conversion from
`float64`. -/
def goTrunc (q : ℚ) : ℤ := if q < 0 then ⌈q⌉ else ⌊q⌋

/-- Core of binary64 rounding for a positive rational: scale into
`[2^52, 2^53)`, round the significand to the nearest integer (ties to
even), and scale back. -/
def flAux (p : ℚ) : ℚ :=
  (rne (p * 2 ^ (52 - Int.log 2 p)) : ℚ) / 2 ^ (52 - Int.log 2 p)

/-- Exact-rational model of rounding a real value to an IEEE-754 binary64
floating-point number (round to nearest, ties to even, 53-bit
significand, unbounded exponent).  Every Go `float64` operation `a ⊕ b`
in the source is embedded as `fl (a ⊕ b)` on exact rationals, which is
precisely the IEEE-754 "correctly rounded" semantics Go guarantees. -/
def fl (q : ℚ) : ℚ :=
  if q = 0 then 0
  else if q < 0 then -(flAux (-q))
  else flAux q

/- ===================================================================
   Part 2.  The cost computation (source: `CalculateCost`, lines 129-134,
   and the pricing constants of `NewClaudeClient`, lines 124-125)
   =================================================================== -/

/-- Source: `inputCostPerToken: 3.0 / 1_000_000` — the Go constant
expression is evaluated exactly and converted once to `float64`. -/
def inputCostPerToken : ℚ := fl (3 / 1000000)

/-- Source: `outputCostPerToken: 15.0 / 1_000_000`. -/
def outputCostPerToken : ℚ := fl (15 / 1000000)

/-- Source, lines 129-134:

    inputCost := float64(inputTokens) * c.inputCostPerToken
    outputCost := float64(outputTokens) * c.outputCostPerToken
    return float64(int((inputCost+outputCost)*10000)) / 10000

Each `float64` operation is one correctly rounded binary64 operation,
hence one application of `fl`; `int(...)` truncates toward zero. -/
def CalculateCost (inputTokens outputTokens : ℤ) : ℚ :=
  let inputCost := fl (fl (inputTokens : ℚ) * inputCostPerToken)
  let outputCost := fl (fl (outputTokens : ℚ) * outputCostPerToken)
  let t : ℤ := goTrunc (fl (fl (inputCost + outputCost) * 10000))
  fl (fl (t : ℚ) / 10000)

/-- Truncation (toward zero) to 4 decimal places, as the spec words it. -/
def trunc4 (q : ℚ) : ℚ := (goTrunc (q * 10000) : ℚ) / 10000

/-- Modelled from the spec's words (claim C1): `cost = inputTokens ×
pricePerInputToken + outputTokens × pricePerOutputToken, truncated (not
rounded-to-nearest) to 4 decimal places`, with exact decimal
arithmetic. -/
def calculateCostExact (inputTokens outputTokens : ℤ) : ℚ :=
  trunc4 ((inputTokens : ℚ) * (3 / 1000000) + (outputTokens : ℚ) * (15 / 1000000))

/- ===================================================================
   Part 3.  Pinning lemmas: evaluating `fl` at concrete points
   =================================================================== -/

theorem rne_eq_low {x : ℚ} {n : ℤ} (h1 : (n : ℚ) ≤ x) (h2 : x < (n : ℚ) + 1/2) :
    rne x = n := by
  have hfl : ⌊x⌋ = n := by
    apply Int.floor_eq_iff.mpr
    exact ⟨h1, by linarith⟩
  unfold rne
  rw [hfl, if_pos (by linarith)]

theorem rne_eq_high {x : ℚ} {n : ℤ} (h1 : (n : ℚ) + 1/2 < x) (h2 : x < (n : ℚ) + 1) :
    rne x = n + 1 := by
  have hfl : ⌊x⌋ = n := by
    apply Int.floor_eq_iff.mpr
    exact ⟨by linarith, by linarith⟩
  unfold rne
  rw [hfl, if_neg (by linarith), if_pos (by linarith)]

theorem log2_pin {p : ℚ} {e : ℤ} (h1 : (2:ℚ) ^ e ≤ p) (h2 : p < (2:ℚ) ^ (e + 1)) :
    Int.log 2 p = e := by
  have hp : 0 < p := lt_of_lt_of_le (zpow_pos (by norm_num) e) h1
  have hle : e ≤ Int.log 2 p := (Int.zpow_le_iff_le_log (by norm_num) hp).mp (by exact_mod_cast h1)
  have hlt : Int.log 2 p < e + 1 := (Int.lt_zpow_iff_log_lt (by norm_num) hp).mp (by exact_mod_cast h2)
  omega

theorem flAux_pin {p : ℚ} {k : ℕ} {m : ℤ}
    (h1 : (2:ℚ) ^ (52 : ℕ) ≤ p * 2 ^ k) (h2 : p * 2 ^ k < (2:ℚ) ^ (53 : ℕ))
    (hm : rne (p * 2 ^ k) = m) :
    flAux p = (m : ℚ) / 2 ^ k := by
  have base : (2:ℚ) ≠ 0 := by norm_num
  have hzk : (2:ℚ) ^ ((k : ℕ) : ℤ) = 2 ^ k := zpow_natCast 2 k
  have h2kpos : (0:ℚ) < 2 ^ k := by positivity
  have hA : (2:ℚ) ^ ((52:ℤ) - k) * 2 ^ k = (2:ℚ) ^ (52 : ℕ) := by
    rw [← hzk, ← zpow_add₀ base, show (52:ℤ) - k + k = ((52:ℕ):ℤ) by push_cast; ring,
      zpow_natCast]
  have hB : (2:ℚ) ^ ((52:ℤ) - k + 1) * 2 ^ k = (2:ℚ) ^ (53 : ℕ) := by
    rw [← hzk, ← zpow_add₀ base, show (52:ℤ) - k + 1 + k = ((53:ℕ):ℤ) by push_cast; ring,
      zpow_natCast]
  have hlog : Int.log 2 p = 52 - (k : ℤ) := by
    apply log2_pin
    · rw [← hA] at h1
      exact le_of_mul_le_mul_right h1 h2kpos
    · rw [← hB] at h2
      exact lt_of_mul_lt_mul_right h2 h2kpos.le
  unfold flAux
  rw [hlog, show (52:ℤ) - (52 - (k:ℤ)) = ((k:ℕ):ℤ) by ring, hzk, hm]

theorem fl_pin {p : ℚ} {k : ℕ} {m : ℤ} (hp : 0 < p)
    (h1 : (2:ℚ) ^ (52 : ℕ) ≤ p * 2 ^ k) (h2 : p * 2 ^ k < (2:ℚ) ^ (53 : ℕ))
    (hm : rne (p * 2 ^ k) = m) :
    fl p = (m : ℚ) / 2 ^ k := by
  unfold fl
  rw [if_neg hp.ne', if_neg (not_lt.mpr hp.le)]
  exact flAux_pin h1 h2 hm

/- ===================================================================
   Part 4.  Concrete evaluation of the cost computation at the failing
   input (inputTokens, outputTokens) = (5, 19)
   =================================================================== -/

theorem goTrunc_pin {q : ℚ} {n : ℤ} (h0 : 0 ≤ q) (h1 : (n : ℚ) ≤ q) (h2 : q < (n : ℚ) + 1) :
    goTrunc q = n := by
  unfold goTrunc
  rw [if_neg (not_lt.mpr h0)]
  exact Int.floor_eq_iff.mpr ⟨h1, by linarith⟩

theorem eval_ipt : inputCostPerToken = 7083549724304468 / 2 ^ 71 := by
  have hm : rne (3 / 1000000 * 2 ^ (71:ℕ)) = 7083549724304468 := by
    have h := @rne_eq_high (3 / 1000000 * 2 ^ (71:ℕ)) 7083549724304467
      (by norm_num) (by norm_num)
    omega
  have h := @fl_pin (3 / 1000000) 71 7083549724304468
    (by norm_num) (by norm_num) (by norm_num) hm
  unfold inputCostPerToken
  rw [h]
  norm_num

theorem eval_opt : outputCostPerToken = 8854437155380585 / 2 ^ 69 := by
  have hm : rne (15 / 1000000 * 2 ^ (69:ℕ)) = 8854437155380585 := by
    have h := @rne_eq_high (15 / 1000000 * 2 ^ (69:ℕ)) 8854437155380584
      (by norm_num) (by norm_num)
    omega
  have h := @fl_pin (15 / 1000000) 69 8854437155380585
    (by norm_num) (by norm_num) (by norm_num) hm
  unfold outputCostPerToken
  rw [h]
  norm_num

theorem eval_fl5 : fl ((5 : ℤ) : ℚ) = 5 := by
  have hm : rne (((5 : ℤ) : ℚ) * 2 ^ (50:ℕ)) = 5629499534213120 := by
    exact @rne_eq_low (((5 : ℤ) : ℚ) * 2 ^ (50:ℕ)) 5629499534213120
      (by norm_num) (by norm_num)
  have h := @fl_pin (((5 : ℤ) : ℚ)) 50 5629499534213120
    (by norm_num) (by norm_num) (by norm_num) hm
  rw [h]
  norm_num

theorem eval_fl19 : fl ((19 : ℤ) : ℚ) = 19 := by
  have hm : rne (((19 : ℤ) : ℚ) * 2 ^ (48:ℕ)) = 5348024557502464 := by
    exact @rne_eq_low (((19 : ℤ) : ℚ) * 2 ^ (48:ℕ)) 5348024557502464
      (by norm_num) (by norm_num)
  have h := @fl_pin (((19 : ℤ) : ℚ)) 48 5348024557502464
    (by norm_num) (by norm_num) (by norm_num) hm
  rw [h]
  norm_num

theorem eval_ic : fl (5 * (7083549724304468 / 2 ^ 71)) = 8854437155380585 / 2 ^ 69 := by
  have hm : rne (5 * (7083549724304468 / 2 ^ 71) * 2 ^ (69:ℕ)) = 8854437155380585 := by
    exact @rne_eq_low (5 * (7083549724304468 / 2 ^ 71) * 2 ^ (69:ℕ)) 8854437155380585
      (by norm_num) (by norm_num)
  have h := @fl_pin (5 * (7083549724304468 / 2 ^ 71)) 69 8854437155380585
    (by norm_num) (by norm_num) (by norm_num) hm
  rw [h]
  norm_num

theorem eval_oc : fl (19 * (8854437155380585 / 2 ^ 69)) = 2628661030503611 / 2 ^ 63 := by
  have hm : rne (19 * (8854437155380585 / 2 ^ 69) * 2 ^ (64:ℕ)) = 5257322061007222 := by
    exact @rne_eq_low (19 * (8854437155380585 / 2 ^ 69) * 2 ^ (64:ℕ)) 5257322061007222
      (by norm_num) (by norm_num)
  have h := @fl_pin (19 * (8854437155380585 / 2 ^ 69)) 64 5257322061007222
    (by norm_num) (by norm_num) (by norm_num) hm
  rw [h]
  norm_num

theorem eval_sum :
    fl (8854437155380585 / 2 ^ 69 + 2628661030503611 / 2 ^ 63) = 5534023222112865 / 2 ^ 64 := by
  have hm : rne ((8854437155380585 / 2 ^ 69 + 2628661030503611 / 2 ^ 63) * 2 ^ (64:ℕ)) =
      5534023222112865 := by
    exact @rne_eq_low ((8854437155380585 / 2 ^ 69 + 2628661030503611 / 2 ^ 63) * 2 ^ (64:ℕ))
      5534023222112865 (by norm_num) (by norm_num)
  have h := @fl_pin (8854437155380585 / 2 ^ 69 + 2628661030503611 / 2 ^ 63) 64 5534023222112865
    (by norm_num) (by norm_num) (by norm_num) hm
  rw [h]
  norm_num

theorem eval_prod :
    fl (5534023222112865 / 2 ^ 64 * 10000) = 6755399441055743 / 2 ^ 51 := by
  have hm : rne (5534023222112865 / 2 ^ 64 * 10000 * 2 ^ (51:ℕ)) = 6755399441055743 := by
    exact @rne_eq_low (5534023222112865 / 2 ^ 64 * 10000 * 2 ^ (51:ℕ)) 6755399441055743
      (by norm_num) (by norm_num)
  have h := @fl_pin (5534023222112865 / 2 ^ 64 * 10000) 51 6755399441055743
    (by norm_num) (by norm_num) (by norm_num) hm
  rw [h]
  norm_num

theorem eval_trunc : goTrunc (6755399441055743 / 2 ^ 51) = 2 := by
  exact @goTrunc_pin (6755399441055743 / 2 ^ 51) 2 (by norm_num) (by norm_num) (by norm_num)

theorem eval_fl2 : fl ((2 : ℤ) : ℚ) = 2 := by
  have hm : rne (((2 : ℤ) : ℚ) * 2 ^ (51:ℕ)) = 4503599627370496 := by
    exact @rne_eq_low (((2 : ℤ) : ℚ) * 2 ^ (51:ℕ)) 4503599627370496
      (by norm_num) (by norm_num)
  have h := @fl_pin (((2 : ℤ) : ℚ)) 51 4503599627370496
    (by norm_num) (by norm_num) (by norm_num) hm
  rw [h]
  norm_num

theorem eval_res : fl ((2 : ℚ) / 10000) = 7378697629483821 / 2 ^ 65 := by
  have hm : rne ((2 : ℚ) / 10000 * 2 ^ (65:ℕ)) = 7378697629483821 := by
    have h := @rne_eq_high ((2 : ℚ) / 10000 * 2 ^ (65:ℕ)) 7378697629483820
      (by norm_num) (by norm_num)
    omega
  have h := @fl_pin ((2 : ℚ) / 10000) 65 7378697629483821
    (by norm_num) (by norm_num) (by norm_num) hm
  rw [h]
  norm_num

theorem calculateCost_5_19 : CalculateCost 5 19 = 7378697629483821 / 2 ^ 65 := by
  have hdef : CalculateCost 5 19 =
      fl (fl ((goTrunc (fl (fl (fl (fl ((5 : ℤ) : ℚ) * inputCostPerToken) +
        fl (fl ((19 : ℤ) : ℚ) * outputCostPerToken)) * 10000)) : ℤ) : ℚ) / 10000) := rfl
  rw [hdef, eval_fl5, eval_fl19, eval_ipt, eval_opt, eval_ic, eval_oc, eval_sum, eval_prod,
    eval_trunc, eval_fl2, eval_res]

theorem calculateCostExact_5_19 : calculateCostExact 5 19 = 3 / 10000 := by
  have harg : ((5 : ℤ) : ℚ) * (3 / 1000000) + ((19 : ℤ) : ℚ) * (15 / 1000000) = 3 / 10000 := by
    push_cast
    norm_num
  unfold calculateCostExact trunc4
  rw [harg, show (3 : ℚ) / 10000 * 10000 = 3 by norm_num,
    @goTrunc_pin 3 3 (by norm_num) (by norm_num) (by norm_num)]
  norm_num

/- ===================================================================
   Part 5.  General facts about binary64 rounding: bounds, monotonicity
   =================================================================== -/

theorem rne_eq_floor_or (x : ℚ) : rne x = ⌊x⌋ ∨ rne x = ⌊x⌋ + 1 := by
  unfold rne
  split_ifs <;> simp

theorem rne_ge (x : ℚ) : x - 1/2 ≤ (rne x : ℚ) := by
  have h0 : (⌊x⌋ : ℚ) ≤ x := Int.floor_le x
  have h1 : x < ⌊x⌋ + 1 := Int.lt_floor_add_one x
  unfold rne
  split_ifs with ha hb hc
  · linarith
  · push_cast
    linarith
  · linarith [not_lt.mp hb]
  · push_cast
    linarith

theorem rne_le (x : ℚ) : (rne x : ℚ) ≤ x + 1/2 := by
  have h0 : (⌊x⌋ : ℚ) ≤ x := Int.floor_le x
  unfold rne
  split_ifs with ha hb hc
  · linarith
  · push_cast
    linarith
  · linarith
  · push_cast
    linarith [not_lt.mp ha]

theorem rne_intCast (n : ℤ) : rne ((n : ℤ) : ℚ) = n := by
  have h := @rne_eq_low ((n : ℤ) : ℚ) n le_rfl (by linarith)
  exact h

theorem rne_mono {x y : ℚ} (h : x ≤ y) : rne x ≤ rne y := by
  have hb_x := rne_eq_floor_or x
  have hb_y := rne_eq_floor_or y
  have hfm : ⌊x⌋ ≤ ⌊y⌋ := Int.floor_mono h
  rcases eq_or_lt_of_le hfm with heq | hlt
  · by_cases hy : 1/2 < y - ⌊y⌋
    · have hy1 : rne y = ⌊y⌋ + 1 :=
        @rne_eq_high y ⌊y⌋ (by linarith) (by linarith [Int.lt_floor_add_one y])
      omega
    · by_cases hx : x - ⌊x⌋ < 1/2
      · have hx1 : rne x = ⌊x⌋ := @rne_eq_low x ⌊x⌋ (Int.floor_le x) (by linarith)
        omega
      · have hq : ((⌊x⌋ : ℤ) : ℚ) = ((⌊y⌋ : ℤ) : ℚ) := by exact_mod_cast heq
        have hxy : x = y := by linarith [not_lt.mp hx, not_lt.mp hy]
        rw [hxy]
  · omega

theorem flAux_bounds {p : ℚ} (hp : 0 < p) :
    (2:ℚ) ^ Int.log 2 p ≤ flAux p ∧ flAux p ≤ (2:ℚ) ^ (Int.log 2 p + 1) := by
  have hbase : (2:ℚ) ≠ 0 := by norm_num
  have hlow : (2:ℚ) ^ Int.log 2 p ≤ p := by
    exact_mod_cast Int.zpow_log_le_self (by norm_num) hp
  have hhigh : p < (2:ℚ) ^ (Int.log 2 p + 1) := by
    exact_mod_cast Int.lt_zpow_succ_log_self (by norm_num) p
  have h2k : (0:ℚ) < (2:ℚ) ^ (52 - Int.log 2 p) := zpow_pos (by norm_num) _
  have hc52 : (2:ℚ) ^ Int.log 2 p * (2:ℚ) ^ (52 - Int.log 2 p) = (2:ℚ) ^ (52:ℤ) := by
    rw [← zpow_add₀ hbase]
    congr 1
    ring
  have hc53 : (2:ℚ) ^ (Int.log 2 p + 1) * (2:ℚ) ^ (52 - Int.log 2 p) = (2:ℚ) ^ (53:ℤ) := by
    rw [← zpow_add₀ hbase]
    congr 1
    ring
  have hs_low : (2:ℚ) ^ (52:ℤ) ≤ p * 2 ^ (52 - Int.log 2 p) := by
    rw [← hc52]
    exact mul_le_mul_of_nonneg_right hlow h2k.le
  have hs_high : p * 2 ^ (52 - Int.log 2 p) < (2:ℚ) ^ (53:ℤ) := by
    rw [← hc53]
    exact mul_lt_mul_of_pos_right hhigh h2k
  have hn52 : ((2:ℚ) ^ (52:ℤ)) = ((2 ^ 52 : ℤ) : ℚ) := by norm_num
  have hn53 : ((2:ℚ) ^ (53:ℤ)) = ((2 ^ 53 : ℤ) : ℚ) := by norm_num
  have hr_low : ((2 ^ 52 : ℤ) : ℚ) ≤ (rne (p * 2 ^ (52 - Int.log 2 p)) : ℚ) := by
    have hint : (2 ^ 52 - 1 : ℤ) < rne (p * 2 ^ (52 - Int.log 2 p)) := by
      have hge := rne_ge (p * 2 ^ (52 - Int.log 2 p))
      rw [hn52] at hs_low
      have : ((2 ^ 52 - 1 : ℤ) : ℚ) < (rne (p * 2 ^ (52 - Int.log 2 p)) : ℚ) := by
        push_cast
        push_cast at hs_low
        linarith
      exact_mod_cast this
    exact_mod_cast hint
  have hr_high : (rne (p * 2 ^ (52 - Int.log 2 p)) : ℚ) ≤ ((2 ^ 53 : ℤ) : ℚ) := by
    have hint : rne (p * 2 ^ (52 - Int.log 2 p)) < 2 ^ 53 + 1 := by
      have hle := rne_le (p * 2 ^ (52 - Int.log 2 p))
      rw [hn53] at hs_high
      have : (rne (p * 2 ^ (52 - Int.log 2 p)) : ℚ) < ((2 ^ 53 + 1 : ℤ) : ℚ) := by
        push_cast
        push_cast at hs_high
        linarith
      exact_mod_cast this
    exact_mod_cast Int.lt_add_one_iff.mp hint
  constructor
  · unfold flAux
    rw [le_div_iff₀ h2k, hc52, hn52]
    exact hr_low
  · unfold flAux
    rw [div_le_iff₀ h2k, hc53, hn53]
    exact hr_high

theorem flAux_pos {p : ℚ} (hp : 0 < p) : 0 < flAux p :=
  lt_of_lt_of_le (zpow_pos (by norm_num) _) (flAux_bounds hp).1

theorem flAux_mono {p q : ℚ} (hp : 0 < p) (hpq : p ≤ q) : flAux p ≤ flAux q := by
  have hq : 0 < q := lt_of_lt_of_le hp hpq
  have hlm : Int.log 2 p ≤ Int.log 2 q := Int.log_mono_right hp hpq
  rcases eq_or_lt_of_le hlm with heq | hlt
  · unfold flAux
    rw [← heq]
    have h2k : (0:ℚ) < (2:ℚ) ^ (52 - Int.log 2 p) := zpow_pos (by norm_num) _
    rw [div_le_div_iff_of_pos_right h2k]
    exact_mod_cast rne_mono (mul_le_mul_of_nonneg_right hpq h2k.le)
  · calc flAux p ≤ (2:ℚ) ^ (Int.log 2 p + 1) := (flAux_bounds hp).2
      _ ≤ (2:ℚ) ^ Int.log 2 q := zpow_le_zpow_right₀ (by norm_num) (by omega)
      _ ≤ flAux q := (flAux_bounds hq).1

theorem fl_zero : fl 0 = 0 := by
  unfold fl
  simp

theorem fl_nonneg {q : ℚ} (h : 0 ≤ q) : 0 ≤ fl q := by
  unfold fl
  split_ifs with h0 hneg
  · exact le_refl 0
  · exact absurd hneg (not_lt.mpr h)
  · exact (flAux_pos (lt_of_le_of_ne h (Ne.symm h0))).le

theorem fl_mono {p q : ℚ} (hp : 0 ≤ p) (h : p ≤ q) : fl p ≤ fl q := by
  rcases eq_or_lt_of_le hp with h0 | hpos
  · rw [← h0, fl_zero]
    exact fl_nonneg (le_trans hp h)
  · have hq : 0 < q := lt_of_lt_of_le hpos h
    unfold fl
    rw [if_neg hpos.ne', if_neg (not_lt.mpr hpos.le), if_neg hq.ne', if_neg (not_lt.mpr hq.le)]
    exact flAux_mono hpos h

/- ===================================================================
   Part 6.  Cost-specific consequences: shape, monotonicity
   =================================================================== -/

theorem goTrunc_nonneg {q : ℚ} (h : 0 ≤ q) : 0 ≤ goTrunc q := by
  unfold goTrunc
  rw [if_neg (not_lt.mpr h)]
  exact Int.floor_nonneg.mpr h

theorem goTrunc_mono {q r : ℚ} (h0 : 0 ≤ q) (h : q ≤ r) : goTrunc q ≤ goTrunc r := by
  unfold goTrunc
  rw [if_neg (not_lt.mpr h0), if_neg (not_lt.mpr (le_trans h0 h))]
  exact Int.floor_mono h

theorem rne_zero : rne 0 = 0 := by
  have h := rne_intCast 0
  rw [Int.cast_zero] at h
  exact h

theorem fl_intCast_eq {t : ℤ} (ht : 0 ≤ t) : ∃ n : ℤ, 0 ≤ n ∧ fl ((t : ℤ) : ℚ) = (n : ℚ) := by
  rcases eq_or_lt_of_le ht with h0 | hpos
  · refine ⟨0, le_refl 0, ?_⟩
    rw [← h0]
    simp [fl_zero]
  · have hp : (0:ℚ) < ((t : ℤ) : ℚ) := by exact_mod_cast hpos
    have hfl : fl ((t : ℤ) : ℚ) = flAux ((t : ℤ) : ℚ) := by
      unfold fl
      rw [if_neg hp.ne', if_neg (not_lt.mpr hp.le)]
    by_cases hk : 0 ≤ 52 - Int.log 2 ((t : ℤ) : ℚ)
    · refine ⟨t, ht, ?_⟩
      have hj : (((52 - Int.log 2 ((t : ℤ) : ℚ)).toNat : ℕ) : ℤ) = 52 - Int.log 2 ((t : ℤ) : ℚ) :=
        Int.toNat_of_nonneg hk
      have hzk : (2:ℚ) ^ (52 - Int.log 2 ((t : ℤ) : ℚ)) =
          ((2 ^ (52 - Int.log 2 ((t : ℤ) : ℚ)).toNat : ℤ) : ℚ) := by
        rw [show ((2 ^ (52 - Int.log 2 ((t : ℤ) : ℚ)).toNat : ℤ) : ℚ) =
            (2:ℚ) ^ (52 - Int.log 2 ((t : ℤ) : ℚ)).toNat by push_cast; ring,
          ← zpow_natCast (2:ℚ), hj]
      have harg : ((t : ℤ) : ℚ) * 2 ^ (52 - Int.log 2 ((t : ℤ) : ℚ)) =
          ((t * 2 ^ (52 - Int.log 2 ((t : ℤ) : ℚ)).toNat : ℤ) : ℚ) := by
        rw [hzk]
        push_cast
        ring
      rw [hfl]
      unfold flAux
      rw [harg, rne_intCast, hzk]
      have hne : ((2 ^ (52 - Int.log 2 ((t : ℤ) : ℚ)).toNat : ℤ) : ℚ) ≠ 0 := by
        push_cast
        positivity
      push_cast
      field_simp
    · have hkneg : 52 - Int.log 2 ((t : ℤ) : ℚ) < 0 := not_le.mp hk
      set s : ℚ := ((t : ℤ) : ℚ) * 2 ^ (52 - Int.log 2 ((t : ℤ) : ℚ)) with hs
      have hs0 : 0 ≤ s := by
        apply mul_nonneg hp.le
        exact (zpow_pos (by norm_num) _).le
      have hrne0 : 0 ≤ rne s := by
        have := rne_mono hs0
        rw [rne_zero] at this
        exact this
      refine ⟨rne s * 2 ^ (Int.log 2 ((t : ℤ) : ℚ) - 52).toNat, by positivity, ?_⟩
      rw [hfl]
      unfold flAux
      rw [← hs]
      have hj : (((Int.log 2 ((t : ℤ) : ℚ) - 52).toNat : ℕ) : ℤ) =
          Int.log 2 ((t : ℤ) : ℚ) - 52 := Int.toNat_of_nonneg (by omega)
      have hzk : (2:ℚ) ^ (52 - Int.log 2 ((t : ℤ) : ℚ)) =
          ((2:ℚ) ^ (Int.log 2 ((t : ℤ) : ℚ) - 52).toNat)⁻¹ := by
        rw [← zpow_natCast (2:ℚ) (Int.log 2 ((t : ℤ) : ℚ) - 52).toNat, hj, ← zpow_neg]
        congr 1
        ring
      rw [hzk]
      push_cast
      field_simp

theorem ipt_nonneg : (0:ℚ) ≤ inputCostPerToken := by
  rw [eval_ipt]
  positivity

theorem opt_nonneg : (0:ℚ) ≤ outputCostPerToken := by
  rw [eval_opt]
  positivity

theorem calculateCost_mono {i o i' o' : ℤ} (hi : 0 ≤ i) (ho : 0 ≤ o)
    (hii : i ≤ i') (hoo : o ≤ o') : CalculateCost i o ≤ CalculateCost i' o' := by
  have hfl_i : fl ((i : ℤ) : ℚ) ≤ fl ((i' : ℤ) : ℚ) :=
    fl_mono (by exact_mod_cast hi) (by exact_mod_cast hii)
  have hfl_i0 : 0 ≤ fl ((i : ℤ) : ℚ) := fl_nonneg (by exact_mod_cast hi)
  have hfl_o : fl ((o : ℤ) : ℚ) ≤ fl ((o' : ℤ) : ℚ) :=
    fl_mono (by exact_mod_cast ho) (by exact_mod_cast hoo)
  have hfl_o0 : 0 ≤ fl ((o : ℤ) : ℚ) := fl_nonneg (by exact_mod_cast ho)
  have h1 : fl (fl ((i : ℤ) : ℚ) * inputCostPerToken) ≤
      fl (fl ((i' : ℤ) : ℚ) * inputCostPerToken) :=
    fl_mono (mul_nonneg hfl_i0 ipt_nonneg) (mul_le_mul_of_nonneg_right hfl_i ipt_nonneg)
  have h10 : 0 ≤ fl (fl ((i : ℤ) : ℚ) * inputCostPerToken) :=
    fl_nonneg (mul_nonneg hfl_i0 ipt_nonneg)
  have h2 : fl (fl ((o : ℤ) : ℚ) * outputCostPerToken) ≤
      fl (fl ((o' : ℤ) : ℚ) * outputCostPerToken) :=
    fl_mono (mul_nonneg hfl_o0 opt_nonneg) (mul_le_mul_of_nonneg_right hfl_o opt_nonneg)
  have h20 : 0 ≤ fl (fl ((o : ℤ) : ℚ) * outputCostPerToken) :=
    fl_nonneg (mul_nonneg hfl_o0 opt_nonneg)
  have h30 : 0 ≤ fl (fl ((i : ℤ) : ℚ) * inputCostPerToken) +
      fl (fl ((o : ℤ) : ℚ) * outputCostPerToken) := add_nonneg h10 h20
  have h4 : fl (fl (fl ((i : ℤ) : ℚ) * inputCostPerToken) +
      fl (fl ((o : ℤ) : ℚ) * outputCostPerToken)) ≤
      fl (fl (fl ((i' : ℤ) : ℚ) * inputCostPerToken) +
      fl (fl ((o' : ℤ) : ℚ) * outputCostPerToken)) :=
    fl_mono h30 (add_le_add h1 h2)
  have h40 : 0 ≤ fl (fl (fl ((i : ℤ) : ℚ) * inputCostPerToken) +
      fl (fl ((o : ℤ) : ℚ) * outputCostPerToken)) := fl_nonneg h30
  have h50 : 0 ≤ fl (fl (fl ((i : ℤ) : ℚ) * inputCostPerToken) +
      fl (fl ((o : ℤ) : ℚ) * outputCostPerToken)) * 10000 :=
    mul_nonneg h40 (by norm_num)
  have h6 := fl_mono h50 (mul_le_mul_of_nonneg_right h4 (by norm_num : (0:ℚ) ≤ 10000))
  have h60 := fl_nonneg h50
  have h7 := goTrunc_mono h60 h6
  have h70 := goTrunc_nonneg h60
  have h8 : ((goTrunc (fl (fl (fl (fl ((i : ℤ) : ℚ) * inputCostPerToken) +
      fl (fl ((o : ℤ) : ℚ) * outputCostPerToken)) * 10000)) : ℤ) : ℚ) ≤
      ((goTrunc (fl (fl (fl (fl ((i' : ℤ) : ℚ) * inputCostPerToken) +
      fl (fl ((o' : ℤ) : ℚ) * outputCostPerToken)) * 10000)) : ℤ) : ℚ) := by
    exact_mod_cast h7
  have h80 : (0:ℚ) ≤ ((goTrunc (fl (fl (fl (fl ((i : ℤ) : ℚ) * inputCostPerToken) +
      fl (fl ((o : ℤ) : ℚ) * outputCostPerToken)) * 10000)) : ℤ) : ℚ) := by
    exact_mod_cast h70
  have h9 := fl_mono h80 h8
  have h90 := fl_nonneg h80
  have h11 := (div_le_div_iff_of_pos_right (by norm_num : (0:ℚ) < 10000)).mpr h9
  have h110 : 0 ≤ fl ((goTrunc (fl (fl (fl (fl ((i : ℤ) : ℚ) * inputCostPerToken) +
      fl (fl ((o : ℤ) : ℚ) * outputCostPerToken)) * 10000)) : ℤ) : ℚ) / 10000 :=
    div_nonneg h90 (by norm_num)
  exact fl_mono h110 h11

theorem calculateCost_shape {i o : ℤ} (hi : 0 ≤ i) (ho : 0 ≤ o) :
    ∃ n : ℤ, 0 ≤ n ∧ CalculateCost i o = fl ((n : ℚ) / 10000) := by
  have h10 : 0 ≤ fl (fl ((i : ℤ) : ℚ) * inputCostPerToken) :=
    fl_nonneg (mul_nonneg (fl_nonneg (by exact_mod_cast hi)) ipt_nonneg)
  have h20 : 0 ≤ fl (fl ((o : ℤ) : ℚ) * outputCostPerToken) :=
    fl_nonneg (mul_nonneg (fl_nonneg (by exact_mod_cast ho)) opt_nonneg)
  have h70 : 0 ≤ goTrunc (fl (fl (fl (fl ((i : ℤ) : ℚ) * inputCostPerToken) +
      fl (fl ((o : ℤ) : ℚ) * outputCostPerToken)) * 10000)) :=
    goTrunc_nonneg (fl_nonneg (mul_nonneg (fl_nonneg (add_nonneg h10 h20)) (by norm_num)))
  obtain ⟨n, hn0, hn⟩ := fl_intCast_eq h70
  refine ⟨n, hn0, ?_⟩
  show fl (fl ((goTrunc (fl (fl (fl (fl ((i : ℤ) : ℚ) * inputCostPerToken) +
      fl (fl ((o : ℤ) : ℚ) * outputCostPerToken)) * 10000)) : ℤ) : ℚ) / 10000) =
      fl ((n : ℚ) / 10000)
  rw [hn]

/- ===================================================================
   Part 7.  Claims C1 and C2
   =================================================================== -/

/-- Claim C1 (status: code_bug).  The claim says `calculateCost` returns
`inputTokens × (3/1,000,000) + outputTokens × (15/1,000,000)` truncated
to 4 decimal places.  At the failing input `(5, 19)` the exact formula
gives exactly `0.0003`, but the code's binary64 arithmetic produces the
double `7378697629483821 / 2^65 ≈ 0.00019999999999999996` (which prints
as `0.0002`): the product `(inputCost+outputCost)*10000` evaluates to
`2.9999999999999996` in binary64 and `int(...)` truncates it to `2`
instead of `3`.  This theorem evaluates the embedded code and the
claim's exact formula at that input and shows they differ. -/
theorem claim_C1_cost_eval_at_failing_input :
    CalculateCost 5 19 = 7378697629483821 / 2 ^ 65 ∧
    calculateCostExact 5 19 = 3 / 10000 ∧
    CalculateCost 5 19 ≠ calculateCostExact 5 19 := by
  refine ⟨calculateCost_5_19, calculateCostExact_5_19, ?_⟩
  rw [calculateCost_5_19, calculateCostExact_5_19]
  norm_num

/-- Claim C2, counterexample.  The claim says the returned value has at
most 4 decimal digits.  The value returned at `(5, 19)` is the binary64
number `7378697629483821 / 2^65`, which is not `n/10000` for any integer
`n` (binary64 cannot represent `0.0002` exactly). -/
theorem claim_C2_counterexample :
    ¬ ∃ n : ℤ, CalculateCost 5 19 = (n : ℚ) / 10000 := by
  rintro ⟨n, hn⟩
  rw [calculateCost_5_19] at hn
  have h : (7378697629483821 : ℚ) * 10000 = (n : ℚ) * 2 ^ 65 := by
    field_simp at hn
    linarith
  have hz : (7378697629483821 * 10000 : ℤ) = n * 2 ^ 65 := by exact_mod_cast h
  omega

/-- Claim C2 as amended (status: corrected).  For all non-negative token
counts, `calculateCost` is monotonically non-decreasing in each argument
separately, and the returned value is the binary64 rounding of `n/10000`
for some non-negative integer `n` — rather than exactly a 4-decimal
value, since binary64 cannot represent most 4-decimal fractions. -/
theorem claim_C2_mono_and_shape : ∀ i o i' o' : ℤ, 0 ≤ i → 0 ≤ o → i ≤ i' → o ≤ o' →
    (CalculateCost i o ≤ CalculateCost i' o ∧ CalculateCost i o ≤ CalculateCost i o' ∧
     ∃ n : ℤ, 0 ≤ n ∧ CalculateCost i o = fl ((n : ℚ) / 10000)) :=
  fun _ _ _ _ hi ho hii hoo =>
    ⟨calculateCost_mono hi ho hii le_rfl, calculateCost_mono hi ho le_rfl hoo,
     calculateCost_shape hi ho⟩

/-- Witness for claim C2's amended theorem at the concrete input
`(5, 19) ≤ (6, 20)`. -/
theorem claim_C2_witness :
    CalculateCost 5 19 ≤ CalculateCost 6 19 ∧ CalculateCost 5 19 ≤ CalculateCost 5 20 ∧
    ∃ n : ℤ, 0 ≤ n ∧ CalculateCost 5 19 = fl ((n : ℚ) / 10000) :=
  claim_C2_mono_and_shape 5 19 6 20 (by decide) (by decide) (by decide) (by decide)

/- ===================================================================
   Part 8.  The result interpreter (source: `parseResult`, lines 272-299)
   =================================================================== -/

/-- Bool test that `sep` is a leading segment of `s`. -/
def startsWithL : List Char → List Char → Bool
  | [], _ => true
  | _ :: _, [] => false
  | a :: sep, b :: s => if a = b then startsWithL sep s else false

/-- Index of the first occurrence of `sep` in `s` (`bytes.Index`).
`none` when `sep` does not occur. -/
def indexOfL (sep : List Char) : List Char → Option ℕ
  | [] => if sep = [] then some 0 else none
  | c :: rest =>
    if startsWithL sep (c :: rest) then some 0
    else (indexOfL sep rest).map (· + 1)

/-- Fuel-driven worker for `splitOnL`; the fuel is always sufficient when
called through `splitOnL`. -/
def splitFuel (sep : List Char) : ℕ → List Char → List (List Char)
  | 0, s => [s]
  | Nat.succ f, s =>
    match indexOfL sep s with
    | none => [s]
    | some i => s.take i :: splitFuel sep f (s.drop (i + sep.length))

/-- Model of Go `bytes.Split(s, sep)` (for the non-empty separators used
by the source): split around each leftmost non-overlapping instance of
`sep`. -/
def splitOnL (sep s : List Char) : List (List Char) := splitFuel sep (s.length + 1) s

/-- Model of Go `bytes.Contains(s, sep)`: true iff `sep` occurs in `s`. -/
def containsL (sep s : List Char) : Bool := (indexOfL sep s).isSome

/-- Whitespace predicate of Go `unicode.IsSpace` restricted to the code
points it special-cases directly (ASCII whitespace, NEL, NBSP); generated
text containing only these is modelled exactly. -/
def goIsSpace (c : Char) : Bool :=
  c = ' ' || c = '\t' || c = '\n' || c = '\x0b' || c = '\x0c' || c = '\r' ||
  c = '\u0085' || c = '\u00A0'

/-- Model of Go `bytes.TrimSpace`: drop whitespace from both ends. -/
def trimL (s : List Char) : List Char :=
  ((s.dropWhile goIsSpace).reverse.dropWhile goIsSpace).reverse

/-- The opening fence marker `"```"`. -/
def fenceMarker : List Char := "```".data

/-- The JSON-tagged fence marker `"```json"`. -/
def jsonFenceMarker : List Char := "```json".data

/-- Source, lines 277-291 (the fence-stripping preprocessing of
`parseResult`); `parts[1]`/`parts2[0]` indexing is guarded by the length
tests exactly as in the source, so `getD` is only ever evaluated in
bounds:

    cleanText := text
    if bytes.Contains([]byte(text), []byte("```json")) {
        parts := bytes.Split([]byte(text), []byte("```json"))
        if len(parts) > 1 {
            parts2 := bytes.Split(parts[1], []byte("```"))
            if len(parts2) > 0 {
                cleanText = string(bytes.TrimSpace(parts2[0]))
            }
        }
    } else if bytes.Contains([]byte(text), []byte("```")) {
        parts := bytes.Split([]byte(text), []byte("```"))
        if len(parts) > 2 {
            cleanText = string(parts[1])
        }
    }
-/
def cleanText (text : List Char) : List Char :=
  if containsL jsonFenceMarker text then
    if (splitOnL jsonFenceMarker text).length > 1 then
      if (splitOnL fenceMarker ((splitOnL jsonFenceMarker text).getD 1 [])).length > 0 then
        trimL ((splitOnL fenceMarker ((splitOnL jsonFenceMarker text).getD 1 [])).getD 0 [])
      else text
    else text
  else if containsL fenceMarker text then
    if (splitOnL fenceMarker text).length > 2 then (splitOnL fenceMarker text).getD 1 []
    else text
  else text

/-- Result of the interpreter: either a parsed JSON object (of abstract
type `J`, standing for Go's `map[string]interface{}`) or the plain-text
fallback `map[string]string{"text": text}`. -/
inductive AgentResult (J : Type) where
  | json (obj : J)
  | textMap (text : List Char)
deriving DecidableEq

/-- Source, lines 272-299: `parseResult` tries `json.Unmarshal` on the
fence-stripped text and falls back to `map[string]string{"text": text}`
with the ORIGINAL text.  `json.Unmarshal` (standard library, not part of
this repository) is abstracted as an arbitrary total function
`jsonUnmarshal` returning `some` exactly when unmarshalling succeeds. -/
def parseResult {J : Type} (jsonUnmarshal : List Char → Option J) (text : List Char) :
    AgentResult J :=
  match jsonUnmarshal (cleanText text) with
  | some obj => AgentResult.json obj
  | none => AgentResult.textMap text

/-- First-occurrence prefix: `s` up to (excluding) the first occurrence
of `sep`, or all of `s` when `sep` does not occur. -/
def upToFirst (sep s : List Char) : List Char :=
  match indexOfL sep s with
  | some i => s.take i
  | none => s

/-- Modelled from the claim's words (C4): "if the string contains a
fenced block marked as JSON, the text attempted as JSON is the content
between the first such fence marker and its closing fence; otherwise, if
the string contains any fenced block, it is the content of the first
fenced block; otherwise it is the original string." -/
def extractClaimed (text : List Char) : List Char :=
  match indexOfL jsonFenceMarker text with
  | some i =>
    match indexOfL fenceMarker (List.drop (i + jsonFenceMarker.length) text) with
    | some j => List.take j (List.drop (i + jsonFenceMarker.length) text)
    | none => text
  | none =>
    match indexOfL fenceMarker text with
    | some i =>
      match indexOfL fenceMarker (List.drop (i + fenceMarker.length) text) with
      | some j => List.take j (List.drop (i + fenceMarker.length) text)
      | none => text
    | none => text

/-- Modelled from the amended claim's words (C4): if the string contains
a `"```json"` marker, the attempted text is the segment after the first
such marker, cut at the next non-overlapping `"```json"` marker (if
any), then cut at the first `"```"` marker inside that segment (if any),
then trimmed of surrounding whitespace; otherwise, if the string
contains a `"```"` marker followed by a second one, the (untrimmed)
content between the first and second markers; otherwise the original
string. -/
def extractAmended (text : List Char) : List Char :=
  match indexOfL jsonFenceMarker text with
  | some i =>
    trimL (upToFirst fenceMarker (upToFirst jsonFenceMarker
      (List.drop (i + jsonFenceMarker.length) text)))
  | none =>
    match indexOfL fenceMarker text with
    | some i =>
      match indexOfL fenceMarker (List.drop (i + fenceMarker.length) text) with
      | some j => List.take j (List.drop (i + fenceMarker.length) text)
      | none => text
    | none => text

/- ===================================================================
   Part 9.  Facts about the split machinery
   =================================================================== -/

theorem indexOfL_nil {sep : List Char} (h : sep ≠ []) : indexOfL sep [] = none := by
  unfold indexOfL
  rw [if_neg h]

theorem splitFuel_congr {sep : List Char} (hsep : sep ≠ []) :
    ∀ n s f g, List.length s ≤ n → List.length s < f → List.length s < g →
    splitFuel sep f s = splitFuel sep g s := by
  intro n
  induction n with
  | zero =>
    intro s f g hn hf hg
    have hs : s = [] := List.eq_nil_of_length_eq_zero (Nat.le_zero.mp hn)
    subst hs
    obtain ⟨f', rfl⟩ := Nat.exists_eq_succ_of_ne_zero (by omega : f ≠ 0)
    obtain ⟨g', rfl⟩ := Nat.exists_eq_succ_of_ne_zero (by omega : g ≠ 0)
    simp [splitFuel, indexOfL_nil hsep]
  | succ m ih =>
    intro s f g hn hf hg
    obtain ⟨f', rfl⟩ := Nat.exists_eq_succ_of_ne_zero (by omega : f ≠ 0)
    obtain ⟨g', rfl⟩ := Nat.exists_eq_succ_of_ne_zero (by omega : g ≠ 0)
    cases hidx : indexOfL sep s with
    | none => simp [splitFuel, hidx]
    | some i =>
      have hsne : s ≠ [] := by
        intro h
        subst h
        rw [indexOfL_nil hsep] at hidx
        exact Option.noConfusion hidx
      have hs1 : 1 ≤ List.length s := List.length_pos.mpr hsne
      have hsep1 : 1 ≤ List.length sep := List.length_pos.mpr hsep
      have hdl : List.length (s.drop (i + sep.length)) = s.length - (i + sep.length) :=
        List.length_drop _ _
      simp only [splitFuel, hidx]
      congr 1
      exact ih (s.drop (i + sep.length)) f' g' (by omega) (by omega) (by omega)

theorem splitOnL_none {sep s : List Char} (h : indexOfL sep s = none) :
    splitOnL sep s = [s] := by
  unfold splitOnL
  simp [splitFuel, h]

theorem splitOnL_some {sep s : List Char} {i : ℕ} (hsep : sep ≠ [])
    (h : indexOfL sep s = some i) :
    splitOnL sep s = s.take i :: splitOnL sep (s.drop (i + sep.length)) := by
  have hsne : s ≠ [] := by
    intro hx
    subst hx
    rw [indexOfL_nil hsep] at h
    exact Option.noConfusion h
  have hs1 : 1 ≤ List.length s := List.length_pos.mpr hsne
  have hsep1 : 1 ≤ List.length sep := List.length_pos.mpr hsep
  have hdl : List.length (s.drop (i + sep.length)) = s.length - (i + sep.length) :=
    List.length_drop _ _
  unfold splitOnL
  simp only [splitFuel, h]
  congr 1
  exact splitFuel_congr hsep (List.length s) (s.drop (i + sep.length)) (List.length s)
    (List.length (s.drop (i + sep.length)) + 1) (by omega) (by omega) (by omega)

theorem splitOnL_ne_nil (sep s : List Char) : splitOnL sep s ≠ [] := by
  unfold splitOnL
  cases h : indexOfL sep s <;> simp [splitFuel, h]

theorem splitOnL_head {sep s : List Char} (hsep : sep ≠ []) :
    (splitOnL sep s).getD 0 [] = upToFirst sep s := by
  cases h : indexOfL sep s with
  | none =>
    rw [splitOnL_none h]
    simp [upToFirst, h]
  | some i =>
    rw [splitOnL_some hsep h]
    simp [upToFirst, h]

theorem splitOnL_len_gt1 {sep s : List Char} (hsep : sep ≠ []) :
    (splitOnL sep s).length > 1 ↔ (indexOfL sep s).isSome := by
  cases h : indexOfL sep s with
  | none =>
    rw [splitOnL_none h]
    simp
  | some i =>
    rw [splitOnL_some hsep h]
    have := List.length_pos.mpr (splitOnL_ne_nil sep (s.drop (i + sep.length)))
    simp only [List.length_cons, Option.isSome_some, iff_true]
    omega

/- ===================================================================
   Part 10.  Branch-by-branch characterization of `cleanText`
   =================================================================== -/

theorem jsonFenceMarker_ne_nil : jsonFenceMarker ≠ [] := by decide

theorem fenceMarker_ne_nil : fenceMarker ≠ [] := by decide

theorem cleanText_json_branch {text : List Char} {i : ℕ}
    (hj : indexOfL jsonFenceMarker text = some i) :
    cleanText text = trimL (upToFirst fenceMarker (upToFirst jsonFenceMarker
      (List.drop (i + jsonFenceMarker.length) text))) := by
  have hc : containsL jsonFenceMarker text = true := by simp [containsL, hj]
  have hsplit := splitOnL_some jsonFenceMarker_ne_nil hj
  have hlen : (splitOnL jsonFenceMarker text).length > 1 := by
    rw [hsplit]
    have := List.length_pos.mpr
      (splitOnL_ne_nil jsonFenceMarker (text.drop (i + jsonFenceMarker.length)))
    simp only [List.length_cons]
    omega
  have hget : (splitOnL jsonFenceMarker text).getD 1 [] =
      upToFirst jsonFenceMarker (text.drop (i + jsonFenceMarker.length)) := by
    rw [hsplit]
    show (splitOnL jsonFenceMarker (text.drop (i + jsonFenceMarker.length))).getD 0 [] = _
    exact splitOnL_head jsonFenceMarker_ne_nil
  have hlen2 : (splitOnL fenceMarker ((splitOnL jsonFenceMarker text).getD 1 [])).length > 0 :=
    List.length_pos.mpr (splitOnL_ne_nil _ _)
  have hget2 : (splitOnL fenceMarker ((splitOnL jsonFenceMarker text).getD 1 [])).getD 0 [] =
      upToFirst fenceMarker ((splitOnL jsonFenceMarker text).getD 1 []) :=
    splitOnL_head fenceMarker_ne_nil
  unfold cleanText
  rw [if_pos hc, if_pos hlen, if_pos hlen2, hget2, hget]

theorem cleanText_fence_two {text : List Char} {i j : ℕ}
    (hnj : indexOfL jsonFenceMarker text = none)
    (hf : indexOfL fenceMarker text = some i)
    (hf2 : indexOfL fenceMarker (List.drop (i + fenceMarker.length) text) = some j) :
    cleanText text = List.take j (List.drop (i + fenceMarker.length) text) := by
  have hc : ¬ (containsL jsonFenceMarker text = true) := by simp [containsL, hnj]
  have hcf : containsL fenceMarker text = true := by simp [containsL, hf]
  have hsplit := splitOnL_some fenceMarker_ne_nil hf
  have hsplit2 := splitOnL_some fenceMarker_ne_nil hf2
  have hlen : (splitOnL fenceMarker text).length > 2 := by
    rw [hsplit, hsplit2]
    have := List.length_pos.mpr (splitOnL_ne_nil fenceMarker
      (List.drop (j + fenceMarker.length) (List.drop (i + fenceMarker.length) text)))
    simp only [List.length_cons]
    omega
  have hget : (splitOnL fenceMarker text).getD 1 [] =
      List.take j (List.drop (i + fenceMarker.length) text) := by
    rw [hsplit, hsplit2]
    rfl
  unfold cleanText
  rw [if_neg hc, if_pos hcf, if_pos hlen, hget]

theorem cleanText_fence_one {text : List Char} {i : ℕ}
    (hnj : indexOfL jsonFenceMarker text = none)
    (hf : indexOfL fenceMarker text = some i)
    (hf2 : indexOfL fenceMarker (List.drop (i + fenceMarker.length) text) = none) :
    cleanText text = text := by
  have hc : ¬ (containsL jsonFenceMarker text = true) := by simp [containsL, hnj]
  have hcf : containsL fenceMarker text = true := by simp [containsL, hf]
  have hsplit := splitOnL_some fenceMarker_ne_nil hf
  have hlen : ¬ ((splitOnL fenceMarker text).length > 2) := by
    rw [hsplit, splitOnL_none hf2]
    simp
  unfold cleanText
  rw [if_neg hc, if_pos hcf, if_neg hlen]

theorem cleanText_nofence {text : List Char}
    (hnj : indexOfL jsonFenceMarker text = none)
    (hnf : indexOfL fenceMarker text = none) :
    cleanText text = text := by
  have hc : ¬ (containsL jsonFenceMarker text = true) := by simp [containsL, hnj]
  have hcf : ¬ (containsL fenceMarker text = true) := by simp [containsL, hnf]
  unfold cleanText
  rw [if_neg hc, if_neg hcf]

/- ===================================================================
   Part 11.  Claims C3, C4, C5
   =================================================================== -/

/-- Claim C3 (status: confirmed).  The result interpreter is a total
function: for every string input — the quantification over `text`
includes the empty string, and the abstract `jsonUnmarshal` covers every
possible parse outcome, including failure on malformed JSON — it returns
a value (either a parsed object or the text fallback) and never fails. -/
theorem claim_C3_interpreter_total :
    ∀ (J : Type) (jsonUnmarshal : List Char → Option J) (text : List Char),
    (∃ obj, parseResult jsonUnmarshal text = AgentResult.json obj) ∨
    parseResult jsonUnmarshal text = AgentResult.textMap text := by
  intro J ju text
  unfold parseResult
  cases h : ju (cleanText text) with
  | some obj => exact Or.inl ⟨obj, rfl⟩
  | none => exact Or.inr rfl

/-- Claim C4, counterexample.  On the input `"```json\n{}\n```"` the
claim says the text attempted as JSON is the content between the first
`"```json"` marker and its closing fence, i.e. `"\n{}\n"`; the code
actually attempts the trimmed fragment `"{}"`. -/
theorem claim_C4_counterexample :
    cleanText ("```json\n\x7b\x7d\n```".data) ≠
      extractClaimed ("```json\n\x7b\x7d\n```".data) ∧
    extractClaimed ("```json\n\x7b\x7d\n```".data) = "\n\x7b\x7d\n".data ∧
    cleanText ("```json\n\x7b\x7d\n```".data) = "\x7b\x7d".data := by
  refine ⟨?_, ?_, ?_⟩ <;> decide

/-- Claim C4 as amended (status: corrected).  For every input string: if
it contains a `"```json"` marker, the text attempted as JSON is the
segment after the first such marker — cut at the next non-overlapping
`"```json"` marker (if any), then cut at the first `"```"` marker inside
that segment (if any; otherwise the segment runs to the end of the
string even though the fence is unterminated) — trimmed of surrounding
whitespace; otherwise, if the string contains a first and then a second
`"```"` marker, the untrimmed content between them; otherwise the
original string. -/
theorem claim_C4_extraction_amended (text : List Char) :
    cleanText text = extractAmended text := by
  unfold extractAmended
  split
  · next i hj => exact cleanText_json_branch hj
  · next hj =>
    split
    · next i hf =>
      split
      · next j hf2 => exact cleanText_fence_two hj hf hf2
      · next hf2 => exact cleanText_fence_one hj hf hf2
    · next hf => exact cleanText_nofence hj hf

/-- Claim C5 (status: confirmed).  Whenever the (possibly
fence-extracted) text fails to unmarshal as JSON, `parseResult` returns
the fallback record whose `text` field is exactly the ORIGINAL untrimmed
input, and — whenever extraction changed the text at all — not the
extracted fragment. -/
theorem claim_C5_fallback_original_text {J : Type}
    (jsonUnmarshal : List Char → Option J) (text : List Char)
    (h : jsonUnmarshal (cleanText text) = none) :
    parseResult jsonUnmarshal text = AgentResult.textMap text ∧
    (cleanText text ≠ text →
      parseResult jsonUnmarshal text ≠ AgentResult.textMap (cleanText text)) := by
  constructor
  · unfold parseResult
    rw [h]
  · intro hne
    unfold parseResult
    rw [h]
    intro hcontra
    injection hcontra with h'
    exact hne h'.symm

/-- Witness for claim C5 at the concrete input `"```json\n{}\n```"` with
the always-failing unmarshaller: the fallback carries the original
string (where the extracted fragment would have been `"{}"`). -/
theorem claim_C5_witness :
    (fun _ : List Char => (none : Option Unit)) (cleanText ("```json\n\x7b\x7d\n```".data)) =
      none ∧
    parseResult (fun _ : List Char => (none : Option Unit)) ("```json\n\x7b\x7d\n```".data) =
      AgentResult.textMap ("```json\n\x7b\x7d\n```".data) :=
  ⟨rfl, (claim_C5_fallback_original_text (fun _ : List Char => (none : Option Unit))
    ("```json\n\x7b\x7d\n```".data) rfl).1⟩

/- ===================================================================
   Part 12.  The HTTP surface (source: lines 19-71, 136-185, 206-244,
   305-410)
   =================================================================== -/

/-- Source, lines 19-22: the `context` mapping is `map[string]interface{}`
in Go; it is abstracted as an arbitrary type `Ctx` since no claim
inspects it. -/
structure AgentInput (Ctx : Type) where
  prompt : String
  context : Ctx

/-- Source, lines 24-28. -/
structure AgentMetadata where
  requestId : String
  userId : String
  timeout : ℤ

/-- Source, lines 30-33 (Go type `ExecuteRequest`). -/
structure ExecuteRequest (Ctx : Type) where
  input : AgentInput Ctx
  metadata : AgentMetadata

/-- Source, lines 35-38. -/
structure TokenUsage where
  input : ℤ
  output : ℤ

/-- Source, lines 40-45; `Model` is the Go zero value `""` when unset and
`TokensUsed` is a nilable pointer, modelled with `Option`. -/
structure ResultMetadata where
  cost : ℚ
  duration : ℤ
  model : String
  tokensUsed : Option TokenUsage

/-- Source, lines 47-51; `Result` is `interface{}` — `none` models Go
`nil`, `some` a value produced by the interpreter. -/
structure ExecuteResponse (J : Type) where
  result : Option (AgentResult J)
  metadata : ResultMetadata
  error : Option String

/-- Source, lines 67-71. -/
structure RootResponse where
  name : String
  version : String
  status : String

/-- Source, lines 62-65 (timestamp is `time.Now().Unix()`). -/
structure HealthResponse where
  status : String
  timestamp : ℤ

/-- Source, lines 53-60 (the `Pricing` map's two entries are inlined). -/
structure InfoResponse where
  id : String
  name : String
  description : String
  version : String
  capabilities : List String
  estimatedCost : ℚ
  currency : String

/-- The body written to the client: a JSON encoding of one of the four
response structs, the plain text of `http.Error`, the `Location`-bearing
answer of a `ServeMux` 301 redirect (`redirectTo` carries the target
path; the short HTML note `http.Redirect` adds for GET requests is not
spelled out), or the empty body of the mux's `400` answer to a `*`
request-URI. -/
inductive HttpBody (J : Type) where
  | execJson (r : ExecuteResponse J)
  | plainText (s : String)
  | rootJson (r : RootResponse)
  | healthJson (r : HealthResponse)
  | infoJson (r : InfoResponse)
  | redirectTo (location : List Char)
  | noBody

/-- An HTTP response as observed by the caller: status code, the
`Content-Type` header, and the body. -/
structure HttpResponse (J : Type) where
  status : ℕ
  contentType : String
  body : HttpBody J

/-- Model of Go's `http.Error(w, msg, code)`: it writes `msg` followed by
a newline as a PLAIN-TEXT body with `Content-Type: text/plain;
charset=utf-8` (it also sets `X-Content-Type-Options: nosniff`, not
modelled). -/
def httpError {J : Type} (msg : String) (code : ℕ) : HttpResponse J :=
  ⟨code, "text/plain; charset=utf-8", HttpBody.plainText (msg ++ "\n")⟩

/-- The bundle `GoAgent.Execute` returns on success (source, lines
234-243): the parsed result, cost, duration, model name and token
counts. -/
structure ExecData (J : Type) where
  result : AgentResult J
  cost : ℚ
  duration : ℤ
  model : String
  tokensUsed : TokenUsage

/-- Source, lines 343-389 (`executeHandler`).  The body decoder and the
orchestrator are abstracted as parameters: `body` is the outcome of
`json.NewDecoder(r.Body).Decode(&req)` (`Except.error` carries the parse
error message) and `execute` is `agent.Execute`, called with
`req.Input.Prompt` and `req.Input.Context` only.  In the source the
method test precedes any read of the body and the decode test precedes
the `agent.Execute` call; correspondingly, in this model the 405 and 400
results are constants independent of `body` and `execute`. -/
def executeHandler {Ctx J : Type}
    (execute : String → Ctx → Except String (ExecData J))
    (method : String) (body : Except String (ExecuteRequest Ctx)) : HttpResponse J :=
  if method ≠ "POST" then httpError "Method not allowed" 405
  else
    match body with
    | Except.error e => httpError ("Invalid request body: " ++ e) 400
    | Except.ok req =>
      match execute req.input.prompt req.input.context with
      | Except.error errMsg =>
        ⟨500, "application/json",
          HttpBody.execJson ⟨none, ⟨0, 0, "", none⟩, some errMsg⟩⟩
      | Except.ok d =>
        ⟨200, "application/json",
          HttpBody.execJson ⟨some d.result, ⟨d.cost, d.duration, d.model, some d.tokensUsed⟩,
            none⟩⟩

/-- Source, lines 307-314. -/
def rootHandler {J : Type} : HttpResponse J :=
  ⟨200, "application/json", HttpBody.rootJson ⟨"Mindra Go Agent", "1.0.0", "running"⟩⟩

/-- Source, lines 316-322 (`now` is the wall clock read). -/
def healthHandler {J : Type} (now : ℤ) : HttpResponse J :=
  ⟨200, "application/json", HttpBody.healthJson ⟨"healthy", now⟩⟩

/-- Source, lines 324-341. -/
def infoHandler {J : Type} : HttpResponse J :=
  ⟨200, "application/json", HttpBody.infoJson
    ⟨"agent-go-template", "Go Template Agent", "Template for building Go-based agents",
     "1.0.0", ["Data analysis", "Insight generation", "Custom processing"], 45 / 100, "USD"⟩⟩

/-- Source, lines 407-410: the route table registered on the default
`ServeMux`.  The patterns `"/health"`, `"/info"`, `"/execute"` have no
trailing slash so they match only the exact path; the pattern `"/"`
matches every other path.  The mux's `ServeHTTP` entry point — the `*`
request-URI check and the path canonicalization that answers
non-canonical paths such as `"//x"` with a 301 redirect before this
table is consulted — is modelled by `serveHTTP` below, which dispatches
to this route table. -/
def serve {Ctx J : Type}
    (execute : String → Ctx → Except String (ExecData J)) (now : ℤ)
    (method path : String) (body : Except String (ExecuteRequest Ctx)) : HttpResponse J :=
  if path = "/health" then healthHandler now
  else if path = "/info" then infoHandler
  else if path = "/execute" then executeHandler execute method body
  else rootHandler

/-- Source, lines 77-87 (`ClaudeMessage`). -/
structure ClaudeMessage where
  role : String
  content : String

/-- Source, lines 82-87 (`ClaudeRequest`). -/
structure ClaudeRequest where
  model : String
  maxTokens : ℕ
  system : String
  messages : List ClaudeMessage

/-- The outbound HTTP request `CreateMessage` issues, as observable data:
URL, headers, client timeout, body. -/
structure OutboundHTTPRequest where
  url : String
  headers : List (String × String)
  timeoutSeconds : ℕ
  body : ClaudeRequest

/-- Source, lines 136-163: the request `CreateMessage` builds and the
client it sends it with.  The timeout is the fixed
`60 * time.Second`; nothing from the inbound request's metadata reaches
this function. -/
def buildClaudeHTTPRequest (apiKey system userMessage : String) : OutboundHTTPRequest :=
  ⟨"https://api.anthropic.com/v1/messages",
   [("Content-Type", "application/json"), ("x-api-key", apiKey),
    ("anthropic-version", "2023-06-01")],
   60,
   ⟨"claude-sonnet-4-5-20250929", 4000, system, [⟨"user", userMessage⟩]⟩⟩

/- ===================================================================
   Part 13.  Claims C6 - C10
   =================================================================== -/

/-- Claim C6 (status: confirmed).  A non-POST request on `/execute` gets
`405 Method Not Allowed` — the result is a constant, independent of the
quantified `body` and `execute`, which is the model's statement that the
body is never decoded and the upstream client never invoked; a POST
whose body fails to decode gets `400 Bad Request` carrying the parse
error message — again a constant in `execute`, so the upstream client is
not invoked. -/
theorem claim_C6_405_and_400 :
    ∀ (Ctx J : Type) (execute : String → Ctx → Except String (ExecData J))
      (method : String) (body : Except String (ExecuteRequest Ctx)) (msg : String),
    (method ≠ "POST" →
      executeHandler execute method body = httpError "Method not allowed" 405) ∧
    (executeHandler execute "POST" (Except.error msg) =
      httpError ("Invalid request body: " ++ msg) 400) := by
  intro Ctx J e m b msg
  constructor
  · intro hm
    unfold executeHandler
    rw [if_pos hm]
  · unfold executeHandler
    rw [if_neg (by simp)]

/-- Witness for claim C6 at the concrete method `"GET"` (405 part) and a
concrete undecodable body (400 part). -/
theorem claim_C6_witness :
    ("GET" ≠ "POST") ∧
    @executeHandler Unit Unit (fun _ _ => Except.error "") "GET" (Except.error "") =
      httpError "Method not allowed" 405 ∧
    @executeHandler Unit Unit (fun _ _ => Except.error "") "POST" (Except.error "boom") =
      httpError ("Invalid request body: " ++ "boom") 400 :=
  ⟨by decide,
   (claim_C6_405_and_400 Unit Unit (fun _ _ => Except.error "") "GET"
     (Except.error "") "x").1 (by decide),
   (claim_C6_405_and_400 Unit Unit (fun _ _ => Except.error "") "POST"
     (Except.error "") "boom").2⟩

/-- Claim C7 (status: confirmed).  When the orchestrator call fails, the
handler answers `500` with exactly `{result: null, metadata: {cost: 0,
duration: 0}, error: <message>}`; and for every orchestrator outcome the
JSON envelope carries a populated `result` exactly when `error` is
absent — never both, never neither. -/
theorem executeHandler_post_ok {Ctx J : Type}
    (execute : String → Ctx → Except String (ExecData J)) (req : ExecuteRequest Ctx) :
    executeHandler execute "POST" (Except.ok req) =
      match execute req.input.prompt req.input.context with
      | Except.error errMsg =>
        ⟨500, "application/json", HttpBody.execJson ⟨none, ⟨0, 0, "", none⟩, some errMsg⟩⟩
      | Except.ok d =>
        ⟨200, "application/json",
         HttpBody.execJson ⟨some d.result, ⟨d.cost, d.duration, d.model, some d.tokensUsed⟩,
           none⟩⟩ := rfl

theorem claim_C7_500_envelope :
    ∀ (Ctx J : Type) (execute : String → Ctx → Except String (ExecData J))
      (req : ExecuteRequest Ctx) (msg : String),
    (execute req.input.prompt req.input.context = Except.error msg →
      executeHandler execute "POST" (Except.ok req) =
        ⟨500, "application/json",
         HttpBody.execJson ⟨none, ⟨0, 0, "", none⟩, some msg⟩⟩) ∧
    (∀ er : ExecuteResponse J,
      (executeHandler execute "POST" (Except.ok req)).body = HttpBody.execJson er →
      (er.result.isSome = true ↔ er.error = none)) := by
  intro Ctx J e req msg
  constructor
  · intro hfail
    rw [executeHandler_post_ok, hfail]
  · intro er her
    cases hr : e req.input.prompt req.input.context with
    | error m =>
      have heq : executeHandler e "POST" (Except.ok req) =
          ⟨500, "application/json", HttpBody.execJson ⟨none, ⟨0, 0, "", none⟩, some m⟩⟩ := by
        rw [executeHandler_post_ok, hr]
      rw [heq] at her
      have her' : HttpBody.execJson (⟨none, ⟨0, 0, "", none⟩, some m⟩ : ExecuteResponse J) =
          HttpBody.execJson er := her
      injection her' with h
      rw [← h]
      simp
    | ok d =>
      have heq : executeHandler e "POST" (Except.ok req) =
          ⟨200, "application/json",
           HttpBody.execJson ⟨some d.result, ⟨d.cost, d.duration, d.model, some d.tokensUsed⟩,
             none⟩⟩ := by
        rw [executeHandler_post_ok, hr]
      rw [heq] at her
      have her' : HttpBody.execJson
          (⟨some d.result, ⟨d.cost, d.duration, d.model, some d.tokensUsed⟩, none⟩ :
            ExecuteResponse J) = HttpBody.execJson er := her
      injection her' with h
      rw [← h]
      simp

/-- Witness for claim C7 with a concrete failing orchestrator. -/
theorem claim_C7_witness :
    ((fun _ _ => Except.error "boom") "p" () =
      (Except.error "boom" : Except String (ExecData Unit))) ∧
    @executeHandler Unit Unit (fun _ _ => Except.error "boom") "POST"
      (Except.ok ⟨⟨"p", ()⟩, ⟨"r", "u", 1000⟩⟩) =
      ⟨500, "application/json", HttpBody.execJson ⟨none, ⟨0, 0, "", none⟩, some "boom"⟩⟩ :=
  ⟨rfl,
   (claim_C7_500_envelope Unit Unit (fun _ _ => Except.error "boom")
     ⟨⟨"p", ()⟩, ⟨"r", "u", 1000⟩⟩ "boom").1 rfl⟩

theorem executeHandler_not_post {Ctx J : Type}
    (execute : String → Ctx → Except String (ExecData J)) (method : String)
    (body : Except String (ExecuteRequest Ctx)) (hm : method ≠ "POST") :
    executeHandler execute method body = httpError "Method not allowed" 405 := by
  unfold executeHandler
  rw [if_pos hm]

theorem executeHandler_post_err {Ctx J : Type}
    (execute : String → Ctx → Except String (ExecData J)) (msg : String) :
    executeHandler execute "POST" (Except.error msg) =
      httpError ("Invalid request body: " ++ msg) 400 := by
  unfold executeHandler
  rw [if_neg (by simp)]

/-- A body written by `json.NewEncoder(w).Encode(...)` (any of the four
struct encodings) as opposed to the plain-text bodies of `http.Error`. -/
def isJsonBody {J : Type} : HttpBody J → Prop
  | HttpBody.plainText _ => False
  | HttpBody.execJson _ => True
  | HttpBody.rootJson _ => True
  | HttpBody.healthJson _ => True
  | HttpBody.infoJson _ => True
  | HttpBody.redirectTo _ => False
  | HttpBody.noBody => False

/-- Claim C8, counterexample.  The claim says every failure path carries
a JSON body with `Content-Type: application/json`; but a `GET /execute`
request is answered through `http.Error`, whose content type is
`text/plain; charset=utf-8`. -/
theorem claim_C8_counterexample :
    (@serve Unit Unit (fun _ _ => Except.error "") 0 "GET" "/execute"
      (Except.error "")).contentType ≠ "application/json" ∧
    (@serve Unit Unit (fun _ _ => Except.error "") 0 "GET" "/execute"
      (Except.error "")).status = 405 ∧
    (@serve Unit Unit (fun _ _ => Except.error "") 0 "GET" "/execute"
      (Except.error "")).contentType = "text/plain; charset=utf-8" := by
  refine ⟨?_, ?_, ?_⟩ <;> decide

/-- Claim C8 as amended (status: corrected).  Every response is either a
JSON body with `Content-Type: application/json` (all `/`, `/health`,
`/info` responses and the 200/500 outcomes of `/execute`), or one of the
two `http.Error` paths of `/execute` — 405 method rejection and 400
decode failure — which carry a PLAIN-TEXT body with `Content-Type:
text/plain; charset=utf-8` (contrary to the claim).  The status still
never contradicts the error field: an execute JSON envelope carries a
non-null `error` exactly when the status is 500. -/
theorem claim_C8_content_types_amended :
    ∀ (Ctx J : Type) (execute : String → Ctx → Except String (ExecData J))
      (now : ℤ) (method path : String) (body : Except String (ExecuteRequest Ctx)),
    ((isJsonBody (serve execute now method path body).body ∧
      (serve execute now method path body).contentType = "application/json") ∨
     (¬ isJsonBody (serve execute now method path body).body ∧
      (serve execute now method path body).contentType = "text/plain; charset=utf-8" ∧
      ((serve execute now method path body).status = 405 ∨
       (serve execute now method path body).status = 400))) ∧
    (∀ er : ExecuteResponse J,
      (serve execute now method path body).body = HttpBody.execJson er →
      ((er.error ≠ none) ↔ (serve execute now method path body).status = 500)) := by
  intro Ctx J e now method path b
  unfold serve
  split_ifs with h1 h2 h3
  · exact ⟨Or.inl ⟨trivial, rfl⟩, fun er her => by simp [healthHandler] at her⟩
  · exact ⟨Or.inl ⟨trivial, rfl⟩, fun er her => by simp [infoHandler] at her⟩
  · by_cases hm : method = "POST"
    · subst hm
      cases b with
      | error msg =>
        rw [executeHandler_post_err]
        exact ⟨Or.inr ⟨not_false, rfl, Or.inr rfl⟩,
          fun er her => by simp [httpError] at her⟩
      | ok req =>
        rw [executeHandler_post_ok]
        cases hr : e req.input.prompt req.input.context with
        | error m =>
          refine ⟨Or.inl ⟨trivial, rfl⟩, fun er her => ?_⟩
          have her' : HttpBody.execJson
              (⟨none, ⟨0, 0, "", none⟩, some m⟩ : ExecuteResponse J) =
              HttpBody.execJson er := her
          injection her' with h
          rw [← h]
          simp
        | ok d =>
          refine ⟨Or.inl ⟨trivial, rfl⟩, fun er her => ?_⟩
          have her' : HttpBody.execJson
              (⟨some d.result, ⟨d.cost, d.duration, d.model, some d.tokensUsed⟩, none⟩ :
                ExecuteResponse J) = HttpBody.execJson er := her
          injection her' with h
          rw [← h]
          simp
    · rw [executeHandler_not_post e method b hm]
      exact ⟨Or.inr ⟨not_false, rfl, Or.inl rfl⟩,
        fun er her => by simp [httpError] at her⟩
  · exact ⟨Or.inl ⟨trivial, rfl⟩, fun er her => by simp [rootHandler] at her⟩

/-- Witness for claim C8's amended theorem at a concrete failing POST
`/execute` request: the 500 envelope's `error` is present iff the status
is 500. -/
theorem claim_C8_witness :
    ((@serve Unit Unit (fun _ _ => Except.error "boom") 0 "POST" "/execute"
        (Except.ok ⟨⟨"p", ()⟩, ⟨"r", "u", 1000⟩⟩)).body =
      HttpBody.execJson ⟨none, ⟨0, 0, "", none⟩, some "boom"⟩) ∧
    ((some "boom" ≠ (none : Option String)) ↔
      (@serve Unit Unit (fun _ _ => Except.error "boom") 0 "POST" "/execute"
        (Except.ok ⟨⟨"p", ()⟩, ⟨"r", "u", 1000⟩⟩)).status = 500) :=
  ⟨rfl,
   (claim_C8_content_types_amended Unit Unit (fun _ _ => Except.error "boom") 0 "POST"
     "/execute" (Except.ok ⟨⟨"p", ()⟩, ⟨"r", "u", 1000⟩⟩)).2
     ⟨none, ⟨0, 0, "", none⟩, some "boom"⟩ rfl⟩

/-- Claim C9 (status: confirmed).  Two POST `/execute` requests that
differ only in their metadata record (in particular the client-supplied
`timeout`) produce identical responses for every fixed upstream
behaviour — the handler reads only `input.prompt` and `input.context` —
and the outbound upstream request is built with the fixed 60-second
timeout, unconnected to anything in the inbound request. -/
theorem claim_C9_client_timeout_ignored :
    ∀ (Ctx J : Type) (execute : String → Ctx → Except String (ExecData J))
      (now : ℤ) (method path : String) (input : AgentInput Ctx)
      (md1 md2 : AgentMetadata),
    serve execute now method path (Except.ok ⟨input, md1⟩) =
      serve execute now method path (Except.ok ⟨input, md2⟩) ∧
    executeHandler execute method (Except.ok ⟨input, md1⟩) =
      executeHandler execute method (Except.ok ⟨input, md2⟩) ∧
    ∀ apiKey system userMessage : String,
      (buildClaudeHTTPRequest apiKey system userMessage).timeoutSeconds = 60 :=
  fun _ _ _ _ _ _ _ _ _ => ⟨rfl, rfl, fun _ _ _ => rfl⟩

